import Mathlib

/-!
# Verification of the Renova-Admin ordered step-list model and HTTP endpoints

Shallow embedding of the TypeScript sources of the Renova-Admin repository:

* `src/app/steps/page.tsx` — the step-list editor (`renumberByArrayOrder`,
  `renumberFromOrder`, `normalizeStepsForSave`, the load effect, `onAddStep`,
  `onDeleteStep`, `onDragEnd`), and the work-type catalog (`workTypes` merge,
  `maxOrder`, `addWorkType`).
* `src/lib/adminGuard.ts` — `requireAdminFromRequest` / `parseAdminUids`.
* the API routes: billing status set, member list, member creation and
  cancel-at-period-end.

JavaScript dynamic values are modelled by the inductive type `JSVal`; a JS
number is `Option Int` (`none` = non-finite, i.e. NaN/±Infinity; the code only
ever produces integral finite numbers).  JS `Array.prototype.sort` with a
consistent comparator is modelled by the stable `List.insertionSort`.
-/

/-! ## JavaScript value model -/

/-- A JS dynamic value, restricted to the shapes that occur in the repository's
data: `undefined`, `null`, strings, finite integral numbers, non-finite
numbers (NaN/Infinity, lumped as `jnan`) and booleans. -/
inductive JSVal where
  | jsUndefined
  | jnull
  | jstr (s : String)
  | jnum (n : Int)
  | jnan
  | jbool (b : Bool)
deriving DecidableEq

/-- JS `v ?? d` (nullish coalescing). -/
def jsCoalesce (v d : JSVal) : JSVal :=
  match v with
  | .jsUndefined => d
  | .jnull => d
  | _ => v

/-- The JS whitespace characters that matter for `String.prototype.trim` on
the data of this repository (space, tab, newline, carriage return, vertical
tab, form feed, no-break space). -/
def isJsWhitespace (c : Char) : Bool :=
  c = ' ' || c = '\t' || c = '\n' || c = '\r' || c = '\x0b' || c = '\x0c' || c = ' '

/-- JS `String.prototype.trim`: strip leading and trailing whitespace. -/
def jsTrim (s : String) : String :=
  ⟨((s.data.dropWhile isJsWhitespace).reverse.dropWhile isJsWhitespace).reverse⟩

/-- JS `String(v)` on a `JSVal`. -/
def jsToString (v : JSVal) : String :=
  match v with
  | .jsUndefined => "undefined"
  | .jnull => "null"
  | .jstr s => s
  | .jnum n => toString n
  | .jnan => "NaN"
  | .jbool b => if b then "true" else "false"

/-- Decimal digits of a JS numeric string body. -/
def parseDecimalDigits (cs : List Char) : Option Nat :=
  if cs ≠ [] && cs.all Char.isDigit then
    some (cs.foldl (fun a c => a * 10 + (c.toNat - 48)) 0)
  else none

/-- JS `Number(s)` for a string, on the domain of optionally signed decimal
integer strings (the only numeric strings this repository can persist);
anything else is mapped to NaN (`none`).  The empty/whitespace string is 0. -/
def jsStringToNumber (s : String) : Option Int :=
  match (jsTrim s).data with
  | [] => some 0
  | c :: rest =>
    if c = '-' then (parseDecimalDigits rest).map (fun n => -(n : Int))
    else if c = '+' then (parseDecimalDigits rest).map (fun n => (n : Int))
    else (parseDecimalDigits (c :: rest)).map (fun n => (n : Int))

/-- JS `Number(v)` on a `JSVal`; `none` is NaN. -/
def jsToNumber (v : JSVal) : Option Int :=
  match v with
  | .jsUndefined => none
  | .jnull => some 0
  | .jstr s => jsStringToNumber s
  | .jnum n => some n
  | .jnan => none
  | .jbool b => some (if b then 1 else 0)

/-- JS `typeof v === "string" ? v : ""` — the `toStr` helper shared by the API
routes, and the string branch of the member-list row normalization. -/
def toStr (v : JSVal) : String :=
  match v with
  | .jstr s => s
  | _ => ""

/-- JS `typeof v === "boolean" ? v : null` — the `toBoolOrNull` helper. -/
def toBoolOrNull (v : JSVal) : Option Bool :=
  match v with
  | .jbool b => some b
  | _ => none

/-- JS `typeof v === "number" ? v : null` — the `toNumOrNull` helper.  The outer
`Option` is the `null` branch; the inner `Option Int` is the JS number itself
(`none` = NaN, which *is* of JS type number and therefore passes the check). -/
def toNumOrNull (v : JSVal) : Option (Option Int) :=
  match v with
  | .jnum n => some (some n)
  | .jnan => some none
  | _ => none

/-- JS `a || b` on strings (first operand if truthy, i.e. non-empty). -/
def jsOr (a b : String) : String :=
  if a = "" then b else a

/-! ## Indexed map (JS `array.map((x, i) => ...)`) -/

/-- Helper `mapIdxFrom f k l` maps `f` over `l` passing indices `k, k+1, ...`. -/
def mapIdxFrom (f : Nat → α → β) (k : Nat) : List α → List β
  | [] => []
  | a :: l => f k a :: mapIdxFrom f (k + 1) l

/-- JS `array.map((x, i) => f i x)`. -/
def jsMapIdx (f : Nat → α → β) (l : List α) : List β :=
  mapIdxFrom f 0 l

theorem mapIdxFrom_length (f : Nat → α → β) (k : Nat) (l : List α) :
    (mapIdxFrom f k l).length = l.length := by
  induction l generalizing k with
  | nil => rfl
  | cons a l ih => simp [mapIdxFrom, ih]

theorem jsMapIdx_length (f : Nat → α → β) (l : List α) :
    (jsMapIdx f l).length = l.length :=
  mapIdxFrom_length f 0 l

theorem map_mapIdxFrom (f : Nat → α → β) (g : β → γ) (k : Nat) (l : List α) :
    (mapIdxFrom f k l).map g = mapIdxFrom (fun i a => g (f i a)) k l := by
  induction l generalizing k with
  | nil => rfl
  | cons a l ih => simp [mapIdxFrom, ih]

theorem mapIdxFrom_congr_map (f : Nat → α → β) (g : α → β) (k : Nat) (l : List α)
    (h : ∀ i a, a ∈ l → f i a = g a) : mapIdxFrom f k l = l.map g := by
  induction l generalizing k with
  | nil => rfl
  | cons a l ih =>
    simp only [mapIdxFrom, List.map_cons, h k a (List.mem_cons_self a l)]
    exact congrArg _ (ih (k + 1) (fun i a ha => h i a (List.mem_cons_of_mem _ ha)))

/-! ## The Step data model (`type Step` in `steps/page.tsx`) -/

/-- Embedding of `type Step = { id: string; name: string; order: number }`.
`order : Option Int` models a JS number (`none` = non-finite). -/
structure Step where
  id : String
  name : String
  order : Option Int
deriving DecidableEq

/-- One element of the normalization pass shared by `renumberByArrayOrder` and
`renumberFromOrder`: coerce `id` (regenerate when falsy, i.e. empty — the
fresh value stands for the `uid()` call), keep the (already string-typed)
`name`, and coerce a non-finite `order` to 0. -/
def normStepJs (fresh : String) (s : Step) : Step :=
  { id := if s.id = "" then fresh else s.id
    name := s.name
    order := some (s.order.getD 0) }

/-- The comparator `(a, b) => a.order - b.order` used on step lists, as the
ordering relation "comparator result ≤ 0".  It is only ever applied after the
normalization pass, so every `order` is `some _` and `getD 0` reads the value. -/
def stepLE (a b : Step) : Prop :=
  a.order.getD 0 ≤ b.order.getD 0

instance : DecidableRel stepLE := fun a b =>
  inferInstanceAs (Decidable (a.order.getD 0 ≤ b.order.getD 0))

/-- The final pass of every renumbering function:
`.map((s, i) => ({ ...s, order: i + 1 }))`. -/
def setOrderByPos (l : List Step) : List Step :=
  jsMapIdx (fun i s => { s with order := some ((i : Int) + 1) }) l

/-- Source `renumberByArrayOrder`: normalize every entry, then stamp `order := i + 1`
by array position (no sorting). -/
def renumberByArrayOrder (fresh : Nat → String) (steps : List Step) : List Step :=
  setOrderByPos (jsMapIdx (fun i s => normStepJs (fresh i) s) steps)

/-- Source `renumberFromOrder`: normalize, sort by the stored `order` ascending with
the stable JS sort, then renumber by array position.  Used only at load time. -/
def renumberFromOrder (fresh : Nat → String) (steps : List Step) : List Step :=
  renumberByArrayOrder fresh
    ((jsMapIdx (fun i s => normStepJs (fresh i) s) steps).insertionSort stepLE)

/-- One element of the cleaning pass of `normalizeStepsForSave`: coerce `id`
(regenerate when falsy), `String(s.name || "").trim()` (identity-then-trim on
an already string-typed name), coerce a non-finite `order` to 0. -/
def saveCleanStep (fresh : String) (s : Step) : Step :=
  { id := if s.id = "" then fresh else s.id
    name := jsTrim s.name
    order := some (s.order.getD 0) }

/-- Source `normalizeStepsForSave`: coerce id/name/order per entry (`name` is trimmed),
drop entries whose trimmed name is empty, then renumber survivors by array
position. -/
def normalizeStepsForSave (fresh : Nat → String) (steps : List Step) : List Step :=
  setOrderByPos
    ((jsMapIdx (fun i s => saveCleanStep (fresh i) s) steps).filter (fun s => s.name.length > 0))

/-- Source `onAddStep`: append a fresh empty step with `order = prev.length + 1`, then
renumber by array position.  `newId` stands for the `uid()` call. -/
def onAddStep (fresh : Nat → String) (newId : String) (prev : List Step) : List Step :=
  renumberByArrayOrder fresh
    (prev ++ [{ id := newId, name := "", order := some ((prev.length : Int) + 1) }])

/-- Source `onDeleteStep`: drop the entry with the given id, then renumber. -/
def onDeleteStep (fresh : Nat → String) (delId : String) (prev : List Step) : List Step :=
  renumberByArrayOrder fresh (prev.filter (fun x => x.id ≠ delId))

/-- Model of `arrayMove` from `@dnd-kit/sortable`: remove the element at `i` and insert
it at `j`.  The editor only calls it with `i` in range (it comes from a
successful `findIndex`); out-of-range `i` leaves the list unchanged. -/
def arrayMove (l : List Step) (i j : Nat) : List Step :=
  match l.get? i with
  | none => l
  | some x => (l.eraseIdx i).insertIdx j x

/-- Source `onDragEnd`: no-op when there is no drop target, when source and target ids
coincide, or when either id is not found; otherwise `arrayMove` then renumber. -/
def onDragEnd (fresh : Nat → String) (activeId : String) (overId : Option String)
    (prev : List Step) : List Step :=
  match overId with
  | none => prev
  | some over =>
    if activeId = over then prev
    else
      match prev.findIdx? (fun x => x.id = activeId), prev.findIdx? (fun x => x.id = over) with
      | some oldIndex, some newIndex => renumberByArrayOrder fresh (arrayMove prev oldIndex newIndex)
      | some _, none => prev
      | none, _ => prev

/-! ## Contiguity invariant -/

/-- The claimed invariant: the list of `order` fields is exactly
`[1, 2, ..., length]`. -/
def ordersMatchPosition (l : List Step) : Prop :=
  l.map Step.order = (List.range' 1 l.length).map (fun n => some ((n : Nat) : Int))

instance (l : List Step) : Decidable (ordersMatchPosition l) :=
  inferInstanceAs
    (Decidable (l.map Step.order = (List.range' 1 l.length).map (fun n => some ((n : Nat) : Int))))

theorem mapIdxFrom_setOrder (k : Nat) (l : List Step) :
    (mapIdxFrom (fun i s => { s with order := some ((i : Int) + 1) }) k l).map Step.order
      = (List.range' (k + 1) l.length).map (fun n => some ((n : Nat) : Int)) := by
  induction l generalizing k with
  | nil => rfl
  | cons a l ih =>
    simp only [mapIdxFrom, List.map_cons, List.length_cons, List.range'_succ, ih (k + 1),
      Nat.cast_add_one]

/-- The final pass of every renumbering function establishes the invariant. -/
theorem ordersMatchPosition_setOrderByPos (l : List Step) :
    ordersMatchPosition (setOrderByPos l) := by
  unfold ordersMatchPosition setOrderByPos jsMapIdx
  rw [mapIdxFrom_length, mapIdxFrom_setOrder]

theorem ordersMatchPosition_renumberByArrayOrder (fresh : Nat → String) (l : List Step) :
    ordersMatchPosition (renumberByArrayOrder fresh l) :=
  ordersMatchPosition_setOrderByPos _

theorem ordersMatchPosition_normalizeStepsForSave (fresh : Nat → String) (l : List Step) :
    ordersMatchPosition (normalizeStepsForSave fresh l) :=
  ordersMatchPosition_setOrderByPos _

/-- C1 — Step-list contiguity invariant: after an add, a delete, a reorder
(drag), and in the canonicalized sequence produced for save, every element's
`order` equals its 1-based array position.  The drag handler's no-op branches
return the previous list, so for the reorder conjunct the invariant is shown
to be preserved (the previous list, being editor state, already satisfies it). -/
theorem stepOrderContiguity (fresh : Nat → String) (newId delId activeId : String)
    (overId : Option String) (prev : List Step) (hprev : ordersMatchPosition prev) :
    ordersMatchPosition (onAddStep fresh newId prev)
      ∧ ordersMatchPosition (onDeleteStep fresh delId prev)
      ∧ ordersMatchPosition (onDragEnd fresh activeId overId prev)
      ∧ ordersMatchPosition (normalizeStepsForSave fresh prev) := by
  refine ⟨ordersMatchPosition_renumberByArrayOrder _ _,
    ordersMatchPosition_renumberByArrayOrder _ _, ?_,
    ordersMatchPosition_normalizeStepsForSave _ _⟩
  unfold onDragEnd
  rcases overId with _ | over
  · exact hprev
  · by_cases h : activeId = over
    · simpa [h] using hprev
    · simp only [if_neg h]
      split
      · exact ordersMatchPosition_renumberByArrayOrder _ _
      · exact hprev
      · exact hprev

/-- Witness for C1 at a concrete editor state. -/
theorem stepOrderContiguityWitness :
    ordersMatchPosition [⟨"a", "demolish", some 1⟩, ⟨"b", "prime", some 2⟩]
      ∧ (ordersMatchPosition
            (onAddStep (fun _ => "f") "c" [⟨"a", "demolish", some 1⟩, ⟨"b", "prime", some 2⟩])
        ∧ ordersMatchPosition
            (onDeleteStep (fun _ => "f") "a" [⟨"a", "demolish", some 1⟩, ⟨"b", "prime", some 2⟩])
        ∧ ordersMatchPosition
            (onDragEnd (fun _ => "f") "a" (some "b") [⟨"a", "demolish", some 1⟩, ⟨"b", "prime", some 2⟩])
        ∧ ordersMatchPosition
            (normalizeStepsForSave (fun _ => "f") [⟨"a", "demolish", some 1⟩, ⟨"b", "prime", some 2⟩])) :=
  ⟨by decide,
    stepOrderContiguity (fun _ => "f") "c" "a" "a" (some "b")
      [⟨"a", "demolish", some 1⟩, ⟨"b", "prime", some 2⟩] (by decide)⟩

/-! ## Facts about `jsTrim` -/

theorem dropWhile_head?_not (p : α → Bool) (l : List α) :
    ∀ a, (l.dropWhile p).head? = some a → p a = false := by
  induction l with
  | nil => intro a h; simp at h
  | cons b l ih =>
    intro a h
    by_cases hb : p b
    · exact ih a (by simpa [List.dropWhile_cons, hb] using h)
    · simp [List.dropWhile_cons, hb] at h
      subst h
      simpa using hb

theorem dropWhile_eq_self_of_head? (p : α → Bool) (l : List α)
    (h : ∀ a, l.head? = some a → p a = false) : l.dropWhile p = l := by
  cases l with
  | nil => rfl
  | cons b l => simp [List.dropWhile_cons, h b rfl]

theorem dropWhile_idem (p : α → Bool) (l : List α) :
    (l.dropWhile p).dropWhile p = l.dropWhile p :=
  dropWhile_eq_self_of_head? p _ (dropWhile_head?_not p l)

theorem getLast?_dropWhile (p : α → Bool) (l : List α) (h : l.dropWhile p ≠ []) :
    (l.dropWhile p).getLast? = l.getLast? := by
  induction l with
  | nil => simp at h
  | cons b l ih =>
    by_cases hb : p b
    · have hne : l.dropWhile p ≠ [] := by
        simpa [List.dropWhile_cons, hb] using h
      have hl : l ≠ [] := by
        intro he; rw [he] at hne; exact hne rfl
      rw [List.dropWhile_cons, if_pos hb, ih hne]
      cases l with
      | nil => exact absurd rfl hl
      | cons c m => rw [List.getLast?_cons_cons]
    · rw [List.dropWhile_cons, if_neg (by simpa using hb)]

/-- Dropping trailing whitespace, as a `List Char` operation. -/
def dropTrailing (l : List Char) : List Char :=
  (l.reverse.dropWhile isJsWhitespace).reverse

theorem dropTrailing_idem (l : List Char) : dropTrailing (dropTrailing l) = dropTrailing l := by
  unfold dropTrailing
  rw [List.reverse_reverse, dropWhile_idem]

theorem dropTrailing_head? (l : List Char) :
    dropTrailing l = [] ∨ (dropTrailing l).head? = l.head? := by
  unfold dropTrailing
  by_cases h : l.reverse.dropWhile isJsWhitespace = []
  · left; simp [h]
  · right
    rw [List.head?_reverse, getLast?_dropWhile _ _ h, List.getLast?_reverse]

theorem jsTrim_data (s : String) :
    (jsTrim s).data = dropTrailing (s.data.dropWhile isJsWhitespace) := rfl

theorem jsTrim_idem (s : String) : jsTrim (jsTrim s) = jsTrim s := by
  have hm : ∀ a, (dropTrailing (s.data.dropWhile isJsWhitespace)).head? = some a →
      isJsWhitespace a = false := by
    intro a ha
    rcases dropTrailing_head? (s.data.dropWhile isJsWhitespace) with h | h
    · rw [h] at ha; simp at ha
    · exact dropWhile_head?_not _ _ a (h ▸ ha)
  show (⟨dropTrailing (((jsTrim s).data).dropWhile isJsWhitespace)⟩ : String) = jsTrim s
  rw [jsTrim_data, dropWhile_eq_self_of_head? _ _ hm, dropTrailing_idem]
  rfl

theorem String_length_pos_iff (s : String) : 0 < s.length ↔ s ≠ "" := by
  have h1 : s.length = s.data.length := rfl
  rw [h1, List.length_pos]
  constructor
  · intro h he
    apply h
    rw [he]
  · intro h hd
    exact h (String.ext hd)

theorem jsTrim_of_trimmed (s : String) (x : String) (hx : s = jsTrim x) : jsTrim s = s := by
  rw [hx, jsTrim_idem]

/-! ## Projection lemmas for the renumbering passes -/

theorem map_proj_setOrderByPos {α : Type} (f : Step → α)
    (hf : ∀ s o, f { s with order := o } = f s) (l : List Step) :
    (setOrderByPos l).map f = l.map f := by
  unfold setOrderByPos jsMapIdx
  rw [map_mapIdxFrom]
  exact mapIdxFrom_congr_map _ f _ _ (fun i a _ => hf a _)

/-- The save filter `name.length > 0` is the same as `name ≠ ""`. -/
theorem filter_name_nonempty (L : List Step) :
    L.filter (fun s => s.name.length > 0) = L.filter (fun s => s.name ≠ "") := by
  apply List.filter_congr
  intro a _
  rw [decide_eq_decide]
  exact String_length_pos_iff a.name

theorem map_filter_proj {α β : Type} (f : α → β) (q : β → Bool) (l : List α) :
    (l.filter (fun a => q (f a))).map f = (l.map f).filter q := by
  induction l with
  | nil => rfl
  | cons a l ih =>
    by_cases h : q (f a) <;> simp [List.filter_cons, h, ih]

/-- C3 — Save canonicalization: the sequence persisted by save (i) keeps,
as `(id, name)` pairs in array order, exactly the entries whose trimmed name is
non-empty, with the id regenerated when falsy and the name trimmed; (ii) numbers
the survivors `1..N` by array position; and (iii) on the spec's example — steps
named "x", "" and "y" — persists `[{name:"x",order:1},{name:"y",order:2}]`
regardless of the stored `order` values. -/
theorem saveCanonicalization (fresh : Nat → String) (steps : List Step) :
    (normalizeStepsForSave fresh steps).map (fun s => (s.id, s.name))
        = (jsMapIdx (fun i s =>
            ((if s.id = "" then fresh i else s.id), jsTrim s.name)) steps).filter
            (fun q => q.2 ≠ "")
      ∧ ordersMatchPosition (normalizeStepsForSave fresh steps)
      ∧ normalizeStepsForSave fresh [⟨"i1", "x", some 7⟩, ⟨"i2", "", some 1⟩, ⟨"i3", "y", none⟩]
          = [⟨"i1", "x", some 1⟩, ⟨"i3", "y", some 2⟩] := by
  refine ⟨?_, ordersMatchPosition_normalizeStepsForSave _ _, rfl⟩
  unfold normalizeStepsForSave
  rw [map_proj_setOrderByPos (fun s : Step => (s.id, s.name)) (fun s o => rfl),
    filter_name_nonempty]
  refine Eq.trans (map_filter_proj (fun s : Step => (s.id, s.name)) (fun q => q.2 ≠ "") _) ?_
  refine congrArg (List.filter _) ?_
  unfold jsMapIdx
  rw [map_mapIdxFrom]
  rfl

/-! ## Load path (`useEffect` load in `steps/page.tsx`, lines 549–561) -/

/-- A raw persisted step entry: the three properties read off the untyped
Firestore data (`obj.id`, `obj.name`, `obj.order`), each an arbitrary JS value. -/
structure RawStep where
  id : JSVal
  name : JSVal
  order : JSVal
deriving DecidableEq

/-- The parse of one raw entry:
`{ id: String(obj.id ?? uid()), name: String(obj.name ?? ""), order: Number(obj.order ?? 0) }`. -/
def parseRawStep (fresh : String) (r : RawStep) : Step :=
  { id := jsToString (jsCoalesce r.id (.jstr fresh))
    name := jsToString (jsCoalesce r.name (.jstr ""))
    order := jsToNumber (jsCoalesce r.order (.jnum 0)) }

/-- The load effect on a present template document's `steps` array: parse each
entry, drop entries whose trimmed name is empty, then `renumberFromOrder`. -/
def loadSteps (freshParse freshRenumber : Nat → String) (raw : List RawStep) : List Step :=
  renumberFromOrder freshRenumber
    ((jsMapIdx (fun i r => parseRawStep (freshParse i) r) raw).filter
      (fun s => (jsTrim s.name).length > 0))

/-- The order-coercion half of the defensive parse (the spec folds it into the
parse; the code applies it inside `renumberFromOrder` before sorting). -/
def coerceOrder (s : Step) : Step :=
  { s with order := some (s.order.getD 0) }

/-- The load path as the spec words it (§4.1 Load): parse each raw entry
defensively with `order` coerced to a finite number (0 when missing or
non-finite) immediately, discard entries whose trimmed name is empty, stable
sort the remaining entries by their stored order ascending, then renumber
`1..N` by sorted position.  Comparison definition for the refinement claim C2. -/
def loadStepsSpec (fresh : Nat → String) (raw : List RawStep) : List Step :=
  setOrderByPos
    (((jsMapIdx (fun i r =>
        ({ id := jsToString (jsCoalesce r.id (.jstr (fresh i)))
           name := jsToString (jsCoalesce r.name (.jstr ""))
           order := some ((jsToNumber (jsCoalesce r.order (.jnum 0))).getD 0) } : Step)) raw).filter
      (fun s => (jsTrim s.name).length > 0)).insertionSort stepLE)

/-- A persisted id that is either missing (so the parse regenerates it) or a
non-empty string (every id this code ever persists is a non-empty string). -/
def benignId (v : JSVal) : Prop :=
  v = .jsUndefined ∨ v = .jnull ∨ ∃ t, v = .jstr t ∧ t ≠ ""

theorem mem_mapIdxFrom (f : Nat → α → β) (k : Nat) (l : List α) (b : β)
    (hb : b ∈ mapIdxFrom f k l) : ∃ i a, a ∈ l ∧ b = f i a := by
  induction l generalizing k with
  | nil => simp [mapIdxFrom] at hb
  | cons a l ih =>
    rcases List.mem_cons.mp hb with h | h
    · exact ⟨k, a, List.mem_cons_self a l, h⟩
    · obtain ⟨i, x, hx, he⟩ := ih (k + 1) h
      exact ⟨i, x, List.mem_cons_of_mem _ hx, he⟩

theorem parsed_id_ne_empty (fp : Nat → String) (raw : List RawStep)
    (hfp : ∀ i, fp i ≠ "") (hraw : ∀ r ∈ raw, benignId r.id) :
    ∀ s ∈ jsMapIdx (fun i r => parseRawStep (fp i) r) raw, s.id ≠ "" := by
  intro s hs
  obtain ⟨i, r, hrmem, he⟩ := mem_mapIdxFrom _ _ _ _ hs
  subst he
  rcases hraw r hrmem with h | h | ⟨t, ht, htne⟩
  · simpa [parseRawStep, h, jsCoalesce, jsToString] using hfp i
  · simpa [parseRawStep, h, jsCoalesce, jsToString] using hfp i
  · simpa [parseRawStep, ht, jsCoalesce, jsToString] using htne

/-- C2 — Load semantics: on any persisted array whose stored ids are
missing-or-nonempty (the only shapes this code ever persists, `uid()` being
non-empty), the code's load path (`parse → filter → renumberFromOrder`) equals
the spec's description (`defensive parse → discard empty-trimmed names →
stable sort by stored order → renumber 1..N by sorted position`); the result
always satisfies the contiguity invariant; and the spec's example — stored
`[{id:b,order:2},{id:a,order:1}]` (with non-empty names, as required by the
discard rule stated in the same claim) — loads as `[a, b]` with orders `[1,2]`. -/
theorem loadSemantics (fp fr : Nat → String) (raw : List RawStep)
    (hfp : ∀ i, fp i ≠ "") (hraw : ∀ r ∈ raw, benignId r.id) :
    loadSteps fp fr raw = loadStepsSpec fp raw
      ∧ ordersMatchPosition (loadSteps fp fr raw)
      ∧ loadSteps fp fr [⟨.jstr "b", .jstr "beta", .jnum 2⟩, ⟨.jstr "a", .jstr "alpha", .jnum 1⟩]
          = [⟨"a", "alpha", some 1⟩, ⟨"b", "beta", some 2⟩] := by
  refine ⟨?_, ordersMatchPosition_renumberByArrayOrder _ _, rfl⟩
  have hPid := parsed_id_ne_empty fp raw hfp hraw
  have hmapeq : (jsMapIdx (fun i r => parseRawStep (fp i) r) raw).map coerceOrder
      = jsMapIdx (fun i r =>
          ({ id := jsToString (jsCoalesce r.id (.jstr (fp i)))
             name := jsToString (jsCoalesce r.name (.jstr ""))
             order := some ((jsToNumber (jsCoalesce r.order (.jnum 0))).getD 0) } : Step)) raw := by
    unfold jsMapIdx
    rw [map_mapIdxFrom]
    rfl
  have hkept : jsMapIdx (fun i s => normStepJs (fr i) s)
      ((jsMapIdx (fun i r => parseRawStep (fp i) r) raw).filter
        (fun s => (jsTrim s.name).length > 0))
      = (jsMapIdx (fun i r =>
          ({ id := jsToString (jsCoalesce r.id (.jstr (fp i)))
             name := jsToString (jsCoalesce r.name (.jstr ""))
             order := some ((jsToNumber (jsCoalesce r.order (.jnum 0))).getD 0) } : Step)) raw).filter
        (fun s => (jsTrim s.name).length > 0) := by
    have h1 : jsMapIdx (fun i s => normStepJs (fr i) s)
        ((jsMapIdx (fun i r => parseRawStep (fp i) r) raw).filter
          (fun s => (jsTrim s.name).length > 0))
        = ((jsMapIdx (fun i r => parseRawStep (fp i) r) raw).filter
            (fun s => (jsTrim s.name).length > 0)).map coerceOrder := by
      apply mapIdxFrom_congr_map
      intro i a ha
      have haid : a.id ≠ "" := hPid a (List.mem_filter.mp ha).1
      simp [normStepJs, coerceOrder, haid]
    rw [h1]
    refine Eq.trans (map_filter_proj coerceOrder (fun s => (jsTrim s.name).length > 0) _) ?_
    rw [hmapeq]
  show renumberFromOrder fr _ = loadStepsSpec fp raw
  unfold renumberFromOrder renumberByArrayOrder loadStepsSpec
  rw [hkept]
  refine congrArg setOrderByPos ?_
  have hsortmem : ∀ s ∈ ((jsMapIdx (fun i r =>
      ({ id := jsToString (jsCoalesce r.id (.jstr (fp i)))
         name := jsToString (jsCoalesce r.name (.jstr ""))
         order := some ((jsToNumber (jsCoalesce r.order (.jnum 0))).getD 0) } : Step)) raw).filter
        (fun s => (jsTrim s.name).length > 0)).insertionSort stepLE,
      s.id ≠ "" ∧ ∃ n, s.order = some n := by
    intro s hs
    have hmemf := (List.perm_insertionSort stepLE _).mem_iff.mp hs
    have hmemP := (List.mem_filter.mp hmemf).1
    rw [← hmapeq] at hmemP
    obtain ⟨a, haP, he⟩ := List.mem_map.mp hmemP
    subst he
    exact ⟨hPid a haP, _, rfl⟩
  refine Eq.trans (mapIdxFrom_congr_map _ id _ _ ?_) (List.map_id _)
  intro i a ha
  obtain ⟨h1, n, h2⟩ := hsortmem a ha
  rcases a with ⟨aid, aname, aorder⟩
  cases h2
  simp only [id_eq]
  simp [normStepJs, h1]

/-- Witness for C2's hypotheses at the spec's own example input. -/
theorem loadSemanticsWitness :
    loadSteps (fun _ => "w") (fun _ => "w")
        [⟨.jstr "b", .jstr "beta", .jnum 2⟩, ⟨.jstr "a", .jstr "alpha", .jnum 1⟩]
      = loadStepsSpec (fun _ => "w")
        [⟨.jstr "b", .jstr "beta", .jnum 2⟩, ⟨.jstr "a", .jstr "alpha", .jnum 1⟩] :=
  (loadSemantics (fun _ => "w") (fun _ => "w") _ (fun _ => by show ("w" : String) ≠ ""; decide)
    (fun r hr => by
      rcases List.mem_cons.mp hr with h | h
      · subst h; exact Or.inr (Or.inr ⟨"b", rfl, by decide⟩)
      · rcases List.mem_cons.mp h with h2 | h2
        · subst h2; exact Or.inr (Or.inr ⟨"a", rfl, by decide⟩)
        · simp at h2)).1

/-! ## Round-trip: save then load -/

/-- Embedding of a canonical (saved) step back into raw persisted form: the
persisted document stores exactly the JS object `{id, name, order}`. -/
def stepToRaw (s : Step) : RawStep :=
  { id := .jstr s.id
    name := .jstr s.name
    order := match s.order with | some n => .jnum n | none => .jnan }

theorem parseRawStep_stepToRaw (fresh : String) (s : Step) :
    parseRawStep fresh (stepToRaw s) = s := by
  rcases s with ⟨i, n, o⟩
  cases o <;> rfl

theorem mapIdxFrom_map (f : Nat → β → γ) (g : α → β) (k : Nat) (l : List α) :
    mapIdxFrom f k (l.map g) = mapIdxFrom (fun i a => f i (g a)) k l := by
  induction l generalizing k with
  | nil => rfl
  | cons a l ih => simp [mapIdxFrom, ih]

theorem setOrderByPos_length (l : List Step) : (setOrderByPos l).length = l.length :=
  jsMapIdx_length _ _

theorem map_name_setOrderByPos (l : List Step) :
    (setOrderByPos l).map Step.name = l.map Step.name :=
  map_proj_setOrderByPos Step.name (fun _ _ => rfl) l

theorem map_name_normPass (fr : Nat → String) (L : List Step) :
    (jsMapIdx (fun i s => normStepJs (fr i) s) L).map Step.name = L.map Step.name := by
  unfold jsMapIdx
  rw [map_mapIdxFrom]
  exact mapIdxFrom_congr_map _ Step.name _ _ (fun _ _ _ => rfl)

theorem map_order_normPass (fr : Nat → String) (L : List Step) :
    (jsMapIdx (fun i s => normStepJs (fr i) s) L).map Step.order
      = L.map (fun s => some (s.order.getD 0)) := by
  unfold jsMapIdx
  rw [map_mapIdxFrom]
  exact mapIdxFrom_congr_map _ _ _ _ (fun _ _ _ => rfl)

/-- A step list whose orders are exactly `[1..N]` is sorted for the JS
comparator. -/
theorem sorted_stepLE_of_orders (l : List Step)
    (h : l.map Step.order = (List.range' 1 l.length).map (fun n => some ((n : Nat) : Int))) :
    List.Sorted stepLE l := by
  have hp : List.Pairwise (fun x y : Option Int => x.getD 0 ≤ y.getD 0) (l.map Step.order) := by
    rw [h, List.pairwise_map]
    refine (List.pairwise_lt_range' 1 l.length).imp ?_
    intro a b hab
    simpa using Int.ofNat_le.mpr (le_of_lt hab)
  rw [List.pairwise_map] at hp
  exact hp

/-- Every entry of a canonicalized save sequence has a trimmed, non-empty name. -/
theorem saved_mem_shape (f0 : Nat → String) (steps : List Step) :
    ∀ s ∈ normalizeStepsForSave f0 steps, jsTrim s.name = s.name ∧ 0 < s.name.length := by
  intro s hs
  unfold normalizeStepsForSave setOrderByPos jsMapIdx at hs
  obtain ⟨i, c, hc, he⟩ := mem_mapIdxFrom _ _ _ _ hs
  subst he
  have hc2 := List.mem_filter.mp hc
  obtain ⟨j, a, _, he2⟩ := mem_mapIdxFrom _ _ _ _ hc2.1
  subst he2
  constructor
  · show jsTrim (jsTrim a.name) = jsTrim a.name
    exact jsTrim_idem a.name
  · simpa using hc2.2

/-- C4 — Save/load round-trip: persisting a canonicalized sequence and
loading it back yields the same ordered list of names (and the same orders). -/
theorem saveLoadRoundTrip (f0 fp fr : Nat → String) (steps : List Step) :
    (loadSteps fp fr ((normalizeStepsForSave f0 steps).map stepToRaw)).map Step.name
        = (normalizeStepsForSave f0 steps).map Step.name
      ∧ (loadSteps fp fr ((normalizeStepsForSave f0 steps).map stepToRaw)).map Step.order
        = (normalizeStepsForSave f0 steps).map Step.order := by
  have hsaved := saved_mem_shape f0 steps
  have hparse : jsMapIdx (fun i r => parseRawStep (fp i) r)
      ((normalizeStepsForSave f0 steps).map stepToRaw) = normalizeStepsForSave f0 steps := by
    unfold jsMapIdx
    rw [mapIdxFrom_map]
    refine Eq.trans (mapIdxFrom_congr_map _ id _ _ ?_) (List.map_id _)
    intro i a _
    exact parseRawStep_stepToRaw (fp i) a
  have hfilter : (normalizeStepsForSave f0 steps).filter (fun s => (jsTrim s.name).length > 0)
      = normalizeStepsForSave f0 steps := by
    apply List.filter_eq_self.mpr
    intro a ha
    obtain ⟨h1, h2⟩ := hsaved a ha
    simp [h1, h2]
  have hload : loadSteps fp fr ((normalizeStepsForSave f0 steps).map stepToRaw)
      = renumberFromOrder fr (normalizeStepsForSave f0 steps) := by
    unfold loadSteps
    rw [hparse, hfilter]
  have hOM := ordersMatchPosition_normalizeStepsForSave f0 steps
  unfold ordersMatchPosition at hOM
  have hMorder : (jsMapIdx (fun i s => normStepJs (fr i) s) (normalizeStepsForSave f0 steps)).map
      Step.order
      = (List.range' 1 (jsMapIdx (fun i s => normStepJs (fr i) s)
          (normalizeStepsForSave f0 steps)).length).map (fun n => some ((n : Nat) : Int)) := by
    rw [map_order_normPass, jsMapIdx_length, show (fun s : Step => some (s.order.getD 0))
        = ((fun o : Option Int => some (o.getD 0)) ∘ Step.order) from rfl, ← List.map_map, hOM,
      List.map_map]
    rfl
  have hsorted := sorted_stepLE_of_orders _ hMorder
  have hsort_eq := List.Sorted.insertionSort_eq hsorted
  rw [hload]
  unfold renumberFromOrder renumberByArrayOrder
  rw [hsort_eq]
  constructor
  · rw [map_name_setOrderByPos, map_name_normPass, map_name_normPass]
  · have h1 := ordersMatchPosition_setOrderByPos (jsMapIdx (fun i s => normStepJs (fr i) s)
      (jsMapIdx (fun i s => normStepJs (fr i) s) (normalizeStepsForSave f0 steps)))
    unfold ordersMatchPosition at h1
    rw [h1, hOM, setOrderByPos_length, jsMapIdx_length, jsMapIdx_length]

/-! ## `onSaveTemplate` and the in-memory editor state (C9) -/

/-- The template document written by save:
`{ workTypeId, title: fixedTitle, steps: fixedSteps, updatedAt: serverTimestamp() }`. -/
structure TemplateSaveDoc where
  workTypeId : String
  title : String
  steps : List Step
deriving DecidableEq

/-- The React state owned by the step-list editor that `onSaveTemplate` can
touch (`steps`, `title`, `saving`, `lastLoadedAt`). -/
structure EditorState where
  steps : List Step
  title : String
  saving : Bool
  lastLoadedAt : String
deriving DecidableEq

inductive SaveOutcome where
  | notLoggedIn
  | saved (doc : TemplateSaveDoc)
  | failed (msg : String)
deriving DecidableEq

/-- The environment of one `onSaveTemplate` run: the authenticated uid (if
any), the `uid()` supply, the selected work type and its catalog label, whether
the id exists in the codes master list, and the results of the three awaited
remote operations (template `setDoc`, label-sync `setDoc`, reload `getDoc` —
each `Except.error` models a thrown rejection caught by the `catch` block). -/
structure SaveEnv where
  userUid : Option String
  fresh : Nat → String
  workTypeId : String
  selectedLabel : Option String
  codesHasId : Bool
  saveTemplateResult : Except String Unit
  saveLabelResult : Except String Unit
  reloadResult : Except String String

/-- Source `onSaveTemplate`: requires login; computes `fixedSteps`/`fixedTitle`; writes
the template document; optionally syncs the codes label; reloads the timestamp.
The handler calls no `setSteps`/`setTitle` — the only state writes are
`setSaving(true)` … `setSaving(false)` (collapsed to the final value here) and
`setLastLoadedAt` on the success path. -/
def onSaveTemplate (env : SaveEnv) (st : EditorState) : SaveOutcome × EditorState :=
  match env.userUid with
  | none => (.notLoggedIn, st)
  | some _ =>
    match env.saveTemplateResult with
    | .error e => (.failed e, { st with saving := false })
    | .ok _ =>
      match (if env.codesHasId then env.saveLabelResult else .ok ()) with
      | .error e => (.failed e, { st with saving := false })
      | .ok _ =>
        match env.reloadResult with
        | .error e => (.failed e, { st with saving := false })
        | .ok ts =>
          (.saved { workTypeId := env.workTypeId
                    title := jsTrim (jsOr st.title (jsOr (env.selectedLabel.getD "") env.workTypeId))
                    steps := normalizeStepsForSave env.fresh st.steps },
            { st with saving := false, lastLoadedAt := ts })

theorem savingFalse_state_eq (st : EditorState) (h : st.saving = false) :
    ({ st with saving := false } : EditorState) = st := by
  rcases st with ⟨a, b, sv, c⟩
  cases h
  rfl

/-- C9 — Save atomicity toward in-memory state: `onSaveTemplate` never
mutates the in-memory step sequence or title, and when the save fails (and the
save button was enabled, i.e. no save was already in flight) the whole editor
state is exactly what it was before the attempt. -/
theorem saveKeepsEditorState (env : SaveEnv) (st : EditorState) :
    ((onSaveTemplate env st).2).steps = st.steps
      ∧ ((onSaveTemplate env st).2).title = st.title
      ∧ (st.saving = false → ∀ e, (onSaveTemplate env st).1 = SaveOutcome.failed e →
          (onSaveTemplate env st).2 = st) := by
  unfold onSaveTemplate
  split
  · exact ⟨rfl, rfl, fun _ e he => nomatch he⟩
  · split
    · exact ⟨rfl, rfl, fun hs _ _ => savingFalse_state_eq st hs⟩
    · split
      · exact ⟨rfl, rfl, fun hs _ _ => savingFalse_state_eq st hs⟩
      · split
        · exact ⟨rfl, rfl, fun hs _ _ => savingFalse_state_eq st hs⟩
        · exact ⟨rfl, rfl, fun _ e he => nomatch he⟩

/-- Witness for C9 at a concrete failing save. -/
theorem saveKeepsEditorStateWitness :
    (onSaveTemplate
      { userUid := some "admin", fresh := fun _ => "f", workTypeId := "usWork"
        selectedLabel := some "US work", codesHasId := true
        saveTemplateResult := .error "unavailable", saveLabelResult := .ok ()
        reloadResult := .ok "t" }
      { steps := [⟨"a", "demolish", some 1⟩], title := "T", saving := false
        lastLoadedAt := "x" }).2
      = { steps := [⟨"a", "demolish", some 1⟩], title := "T", saving := false
          lastLoadedAt := "x" } :=
  (saveKeepsEditorState _ _).2.2 rfl "unavailable" rfl

/-! ## Admin guard (`src/lib/adminGuard.ts`) -/

/-- The regex `/^Bearer\s+(.+)$/i` on an HTTP header value: a case-insensitive
`Bearer` prefix, at least one whitespace character, then the non-empty
credential.  (Header values cannot contain newlines, and the regex's
backtracking on an all-whitespace tail — which would capture a whitespace
credential — is not modelled; no claim depends on it.) -/
def matchBearer (h : String) : Option String :=
  let cs := h.data
  if (cs.take 6).map Char.toLower = "bearer".data then
    let rest := cs.drop 6
    if rest.takeWhile isJsWhitespace ≠ [] && rest.dropWhile isJsWhitespace ≠ [] then
      some ⟨rest.dropWhile isJsWhitespace⟩
    else none
  else none

/-- Source `getBearer`: read the `authorization` header (empty string when absent) and
match the bearer regex, `null` on no match. -/
def getBearer (authHeader : Option String) : Option String :=
  matchBearer (authHeader.getD "")

/-- JS `s.split(",")` (structurally recursive so that concrete instances
reduce; `"".split(",")` is `[""]`, like in JS). -/
def splitCommaAux : List Char → List Char → List String
  | [], acc => [⟨acc.reverse⟩]
  | c :: rest, acc =>
    if c = ',' then ⟨acc.reverse⟩ :: splitCommaAux rest [] else splitCommaAux rest (c :: acc)

def jsSplitComma (s : String) : List String :=
  splitCommaAux s.data []

/-- Source `parseAdminUids`: split `RENOVA_ADMIN_UIDS` on commas, trim each piece,
drop empty pieces. -/
def parseAdminUids (raw : String) : List String :=
  ((jsSplitComma raw).map jsTrim).filter (fun s => s.length > 0)

/-- Source `requireAdminFromRequest`: extract the bearer credential (throwing
`missing_authorization` when the header is absent or malformed), verify it via
the identity provider (`verify`; a thrown verification error propagates), then
require membership in the configured admin allow-list (`not_admin` otherwise). -/
def requireAdminFromRequest (verify : String → Except String String) (adminUidsRaw : String)
    (authHeader : Option String) : Except String String :=
  match matchBearer (authHeader.getD "") with
  | none => .error "missing_authorization"
  | some token =>
    match verify token with
    | .error e => .error e
    | .ok uid =>
      if (parseAdminUids adminUidsRaw).contains uid then .ok uid else .error "not_admin"

/-- The HTTP status mapping shared by the member-creation and billing-set
routes: `missing_authorization` → 401, `not_admin` → 403, anything else → 500. -/
def statusForAdminError (msg : String) : Nat :=
  if msg = "missing_authorization" then 401 else if msg = "not_admin" then 403 else 500

/-- An HTTP JSON response: `{ok:true, ...payload}` or `{ok:false, error}` with
a status code. -/
inductive ApiResp (ρ : Type) where
  | ok (v : ρ)
  | err (status : Nat) (msg : String)
deriving DecidableEq

/-! ## Billing status set endpoint (`part_000`) -/

/-- Source `toMode`: `v === "free" ? "free" : "paid"`. -/
def toMode (v : JSVal) : String :=
  if v = .jstr "free" then "free" else "paid"

/-- Source `toStatus`: `v === "active" ? "active" : "inactive"`. -/
def toStatus (v : JSVal) : String :=
  if v = .jstr "active" then "active" else "inactive"

/-- The request body of the billing status set endpoint, fields untrusted. -/
structure BillingSetBody where
  uid : JSVal
  mode : JSVal
  status : JSVal
  stripeCustomerId : JSVal
  stripeSubscriptionId : JSVal
deriving DecidableEq

/-- The billing sub-record merge-written to `renovaUsers/{uid}`. -/
structure BillingWrite where
  uid : String
  mode : String
  status : String
  stripeCustomerId : String
  stripeSubscriptionId : String
deriving DecidableEq

/-- The billing status set route: admin gate, `uid_required` validation, then
coercing writes (`writeResult` models the awaited Firestore `set`). -/
def billingSetHandler (verify : String → Except String String) (adminUidsRaw : String)
    (authHeader : Option String) (body : BillingSetBody)
    (writeResult : Except String Unit) : ApiResp BillingWrite :=
  match requireAdminFromRequest verify adminUidsRaw authHeader with
  | .error msg => .err (statusForAdminError msg) msg
  | .ok _ =>
    if jsTrim (toStr body.uid) = "" then .err 400 "uid_required"
    else
      match writeResult with
      | .error e => .err 500 e
      | .ok _ =>
        .ok { uid := jsTrim (toStr body.uid)
              mode := toMode body.mode
              status := toStatus body.status
              stripeCustomerId := toStr (jsCoalesce body.stripeCustomerId (.jstr ""))
              stripeSubscriptionId := toStr (jsCoalesce body.stripeSubscriptionId (.jstr "")) }

/-! ## Member list endpoint (`part_002`) -/

/-- Source `pickStatus`: `v === "active" ? "active" : "inactive"`. -/
def pickStatus (v : JSVal) : String :=
  if v = .jstr "active" then "active" else "inactive"

/-- The raw billing sub-object of a member document. -/
structure BillingRaw where
  status : JSVal
  stripeSubscriptionId : JSVal
  cancelAtPeriodEnd : JSVal
  currentPeriodEndMs : JSVal
deriving DecidableEq

/-- A raw member document (`billing = none` models `data.billing ?? {}` firing). -/
structure MemberDocRaw where
  uid : JSVal
  email : JSVal
  billing : Option BillingRaw
deriving DecidableEq

/-- Reading a field of `(data.billing ?? {})`: `undefined` when absent. -/
def billingField (b : Option BillingRaw) (f : BillingRaw → JSVal) : JSVal :=
  match b with
  | some br => f br
  | none => .jsUndefined

/-- The normalized member row (`MemberRow` in the route). -/
structure MemberRow where
  uid : String
  email : String
  status : String
  stripeSubscriptionId : String
  cancelAtPeriodEnd : Option Bool
  currentPeriodEndMs : Option (Option Int)
deriving DecidableEq

def memberRow (docId : String) (d : MemberDocRaw) : MemberRow :=
  { uid := jsOr (toStr d.uid) docId
    email := toStr d.email
    status := pickStatus (billingField d.billing BillingRaw.status)
    stripeSubscriptionId := toStr (billingField d.billing BillingRaw.stripeSubscriptionId)
    cancelAtPeriodEnd := toBoolOrNull (billingField d.billing BillingRaw.cancelAtPeriodEnd)
    currentPeriodEndMs := toNumOrNull (billingField d.billing BillingRaw.currentPeriodEndMs) }

/-- The member list route `POST(_req)`: the request — including its
Authorization header — is never read; the full collection is mapped to rows. -/
def membersListHandler (db : Except String (List (String × MemberDocRaw)))
    (_authHeader : Option String) : ApiResp (List MemberRow) :=
  match db with
  | .error e => .err 500 e
  | .ok docs => .ok (docs.map (fun d => memberRow d.1 d.2))

/-! ## Member creation endpoint (`part_004`) -/

/-- Source `toBillingMode`: `v === "free" ? "free" : "paid"`. -/
def toBillingMode (v : JSVal) : String :=
  if v = .jstr "free" then "free" else "paid"

/-- Source `normalizePhone`: `s.replace(/[^\d+]/g, "").trim()`. -/
def normalizePhone (s : String) : String :=
  jsTrim ⟨s.data.filter (fun c => c.isDigit || c = '+')⟩

structure CreateMemberBody where
  email : JSVal
  password : JSVal
  fullName : JSVal
  phone : JSVal
  companyName : JSVal
  companyAddress : JSVal
  billingMode : JSVal
deriving DecidableEq

/-- The member document written to `reNovaMember/{uid}` on creation. -/
structure MemberCreateDoc where
  uid : String
  email : String
  fullName : String
  phone : String
  companyName : String
  companyAddress : String
  billingMode : String
  billingStatus : String
  stripeCustomerId : String
  stripeSubscriptionId : String
deriving DecidableEq

/-- The member creation route: admin gate, per-field validation, identity
provider `createUser`, then the Firestore write. -/
def createMemberHandler (verify : String → Except String String) (adminUidsRaw : String)
    (authHeader : Option String) (body : CreateMemberBody)
    (createUser : String → String → Except String String)
    (writeResult : Except String Unit) : ApiResp MemberCreateDoc :=
  match requireAdminFromRequest verify adminUidsRaw authHeader with
  | .error msg => .err (statusForAdminError msg) msg
  | .ok _ =>
    let email := jsTrim (toStr body.email)
    let password := toStr body.password
    let fullName := jsTrim (toStr body.fullName)
    if email = "" then .err 400 "email_required"
    else if password = "" || password.length < 6 then .err 400 "password_min_6"
    else if fullName = "" then .err 400 "fullName_required"
    else if jsTrim (toStr body.companyName) = "" then .err 400 "companyName_required"
    else
      match createUser email password with
      | .error e => .err 500 e
      | .ok uid =>
        match writeResult with
        | .error e => .err 500 e
        | .ok _ =>
          .ok { uid, email, fullName
                phone := normalizePhone (toStr body.phone)
                companyName := jsTrim (toStr body.companyName)
                companyAddress := jsTrim (toStr body.companyAddress)
                billingMode := toBillingMode body.billingMode
                billingStatus := if toBillingMode body.billingMode = "free" then "active"
                  else "inactive"
                stripeCustomerId := "", stripeSubscriptionId := "" }

/-! ## Cancel-at-period-end endpoint (`part_005`) -/

/-- The fields the route reads off the Stripe subscription-update response. -/
structure StripeSubResp where
  cancel_at_period_end : JSVal
  current_period_end : JSVal
deriving DecidableEq

structure MemberBillingDoc where
  stripeSubscriptionId : JSVal
deriving DecidableEq

/-- A member document as read by the cancel route (`billing = none` when
`memberData.billing` is not an object). -/
structure MemberDocCancel where
  billing : Option MemberBillingDoc
deriving DecidableEq

structure CancelBody where
  uid : JSVal
  cancelAtPeriodEnd : JSVal
deriving DecidableEq

/-- The billing mirror merge-written back to the member document. -/
structure BillingMirrorWrite where
  cancelAtPeriodEnd : Option Bool
  currentPeriodEndMs : Option (Option Int)
deriving DecidableEq

/-- The `ok:true` response of the cancel route together with the mirror write
it performed. -/
structure CancelSuccess where
  uid : String
  stripeSubscriptionId : String
  cancelAtPeriodEnd : Option Bool
  currentPeriodEndMs : Option (Option Int)
  write : BillingMirrorWrite
deriving DecidableEq

/-- The environment of one cancel-route request: the header, the identity
provider, the body, the member lookup (covering both the by-id and by-field
paths of `findMemberRefByUid`), and the Stripe subscription update. -/
structure CancelEnv where
  authHeader : Option String
  verify : String → Except String String
  body : CancelBody
  memberLookup : String → Option MemberDocCancel
  stripeUpdate : String → Bool → Except String StripeSubResp

/-- Seconds to milliseconds on a JS number (`NaN * 1000 = NaN`). -/
def jnumScaleMs (j : Option Int) : Option Int :=
  match j with
  | some n => some (n * 1000)
  | none => none

/-- The cancel-at-period-end route.  Note the deliberate absence of any
allow-list check: only a bearer token with a truthy decoded uid is required
(the source comments "admin判定はしない。ログインしていれば全員OK").  The two
halves of `if (!uid || cancelAtPeriodEnd === null)` are split into successive
checks here; both produce the same 400 response. -/
def cancelHandler (env : CancelEnv) : ApiResp CancelSuccess :=
  match getBearer env.authHeader with
  | none => .err 401 "UNAUTHORIZED"
  | some token =>
    match env.verify token with
    | .error e => .err 500 e
    | .ok decodedUid =>
      if decodedUid = "" then .err 401 "UNAUTHORIZED"
      else
        match toBoolOrNull env.body.cancelAtPeriodEnd with
        | none => .err 400 "BAD_REQUEST"
        | some flag =>
          if toStr env.body.uid = "" then .err 400 "BAD_REQUEST"
          else
            match env.memberLookup (toStr env.body.uid) with
            | none => .err 404 "NOT_FOUND"
            | some memberDoc =>
              match (match memberDoc.billing with
                | some b => toStr b.stripeSubscriptionId
                | none => "") with
              | "" => .err 400 "stripeSubscriptionId_missing"
              | subId =>
                match env.stripeUpdate subId flag with
                | .error e => .err 500 e
                | .ok resp =>
                  .ok { uid := toStr env.body.uid
                        stripeSubscriptionId := subId
                        cancelAtPeriodEnd := toBoolOrNull resp.cancel_at_period_end
                        currentPeriodEndMs := (toNumOrNull resp.current_period_end).map jnumScaleMs
                        write := { cancelAtPeriodEnd := toBoolOrNull resp.cancel_at_period_end
                                   currentPeriodEndMs :=
                                     (toNumOrNull resp.current_period_end).map jnumScaleMs } }

/-! ## Endpoint theorems -/

theorem toBoolOrNull_eq_some (v : JSVal) (b : Bool) (h : toBoolOrNull v = some b) :
    v = .jbool b := by
  cases v <;> simp [toBoolOrNull] at h
  rw [h]

/-- C5 — Billing mirror authority: whenever the cancel-at-period-end route
answers `ok:true`, the values merge-written to the member's billing sub-record
are exactly the billing provider's response fields — `cancel_at_period_end`
via the boolean-or-null coercion and `current_period_end` seconds converted to
milliseconds (null when not of number type) — never the client-supplied flag
(which reaches the write only through the provider's response). -/
theorem billingMirrorAuthority (env : CancelEnv) (s : CancelSuccess)
    (h : cancelHandler env = .ok s) :
    ∃ flag resp, env.body.cancelAtPeriodEnd = .jbool flag
      ∧ env.stripeUpdate s.stripeSubscriptionId flag = .ok resp
      ∧ s.write.cancelAtPeriodEnd = toBoolOrNull resp.cancel_at_period_end
      ∧ s.write.currentPeriodEndMs = (toNumOrNull resp.current_period_end).map jnumScaleMs := by
  unfold cancelHandler at h
  split at h
  · exact nomatch h
  split at h
  · exact nomatch h
  split at h
  · exact nomatch h
  split at h
  · exact nomatch h
  rename_i flag hflag
  split at h
  · exact nomatch h
  split at h
  · exact nomatch h
  split at h
  · exact nomatch h
  rename_i subId hsub
  split at h
  · exact nomatch h
  rename_i resp hresp
  cases h
  exact ⟨flag, resp, toBoolOrNull_eq_some _ _ hflag, hresp, rfl, rfl⟩

/-- A cancel-route environment on which every remote step succeeds. -/
def cancelEnvOk : CancelEnv :=
  { authHeader := some "Bearer tok"
    verify := fun _ => .ok "user1"
    body := { uid := .jstr "m1", cancelAtPeriodEnd := .jbool true }
    memberLookup := fun _ => some { billing := some { stripeSubscriptionId := .jstr "sub1" } }
    stripeUpdate := fun _ _ =>
      .ok { cancel_at_period_end := .jbool true, current_period_end := .jnum 1700000000 } }

/-- Witness for C5 on a concrete successful request. -/
theorem billingMirrorAuthorityWitness :
    ∃ s, cancelHandler cancelEnvOk = ApiResp.ok s
      ∧ ∃ flag resp, cancelEnvOk.body.cancelAtPeriodEnd = .jbool flag
        ∧ cancelEnvOk.stripeUpdate s.stripeSubscriptionId flag = .ok resp
        ∧ s.write.cancelAtPeriodEnd = toBoolOrNull resp.cancel_at_period_end
        ∧ s.write.currentPeriodEndMs = (toNumOrNull resp.current_period_end).map jnumScaleMs :=
  ⟨_, rfl, billingMirrorAuthority cancelEnvOk _ rfl⟩

/-- C10 — The billing status set endpoint coerces instead of rejecting: for
an authorized request the only validation failure is `uid_required` (400),
produced exactly when the trimmed uid is empty; otherwise the write always
happens, with any mode other than `"free"` persisted as `"paid"`, any status
other than `"active"` persisted as `"inactive"`, and missing or non-string
Stripe ids persisted as empty strings. -/
theorem billingSetCoercion (verify : String → Except String String) (raw : String)
    (authHeader : Option String) (body : BillingSetBody) (u : String)
    (hgate : requireAdminFromRequest verify raw authHeader = .ok u) :
    (jsTrim (toStr body.uid) = "" →
        billingSetHandler verify raw authHeader body (.ok ()) = .err 400 "uid_required")
      ∧ (jsTrim (toStr body.uid) ≠ "" →
          billingSetHandler verify raw authHeader body (.ok ())
            = .ok { uid := jsTrim (toStr body.uid)
                    mode := toMode body.mode
                    status := toStatus body.status
                    stripeCustomerId := toStr (jsCoalesce body.stripeCustomerId (.jstr ""))
                    stripeSubscriptionId := toStr (jsCoalesce body.stripeSubscriptionId (.jstr "")) })
      ∧ (body.mode ≠ .jstr "free" → toMode body.mode = "paid")
      ∧ (body.status ≠ .jstr "active" → toStatus body.status = "inactive")
      ∧ (∀ v : JSVal, body.stripeCustomerId = v → (∀ t, v ≠ .jstr t) →
          toStr (jsCoalesce v (.jstr "")) = "")
      ∧ (∀ v : JSVal, body.stripeSubscriptionId = v → (∀ t, v ≠ .jstr t) →
          toStr (jsCoalesce v (.jstr "")) = "") := by
  refine ⟨?_, ?_, ?_, ?_, ?_, ?_⟩
  · intro hu
    unfold billingSetHandler
    rw [hgate, if_pos hu]
  · intro hu
    unfold billingSetHandler
    rw [hgate, if_neg hu]
  · intro hm
    unfold toMode
    rw [if_neg hm]
  · intro hs
    unfold toStatus
    rw [if_neg hs]
  · intro v _ hns
    cases v <;> first | rfl | exact absurd rfl (hns _)
  · intro v _ hns
    cases v <;> first | rfl | exact absurd rfl (hns _)

/-- Witness for C10: a gate-passing request with junk enum values and a
numeric/missing Stripe id is persisted fully coerced. -/
theorem billingSetCoercionWitness :
    billingSetHandler (fun _ => .ok "adm") "adm" (some "Bearer t")
        { uid := .jstr " u1 ", mode := .jstr "premium", status := .jstr "weird",
          stripeCustomerId := .jnum 5, stripeSubscriptionId := .jsUndefined } (.ok ())
      = ApiResp.ok { uid := "u1", mode := "paid", status := "inactive",
                     stripeCustomerId := "", stripeSubscriptionId := "" } :=
  (billingSetCoercion (fun _ => .ok "adm") "adm" (some "Bearer t")
    { uid := .jstr " u1 ", mode := .jstr "premium", status := .jstr "weird",
      stripeCustomerId := .jnum 5, stripeSubscriptionId := .jsUndefined } "adm" rfl).2.1 (by decide)

/-- C6 counterexample — the claim that every privileged operation
(member creation, member list, billing status set, cancel-at-period-end)
fails closed on a missing Authorization header / invalid credential /
non-allow-listed principal is false on the code: the member-list route answers
`ok` with no Authorization header at all, and the cancel route answers `ok`
for an authenticated principal that is on no allow-list (it never consults
one — its source comments that the admin check is deliberately skipped). -/
theorem identityGateCounterexample :
    membersListHandler (.ok []) none = ApiResp.ok []
      ∧ cancelHandler
          { authHeader := some "Bearer tok"
            verify := fun _ => .ok "not-an-admin"
            body := { uid := .jstr "m1", cancelAtPeriodEnd := .jbool true }
            memberLookup := fun _ =>
              some { billing := some { stripeSubscriptionId := .jstr "sub1" } }
            stripeUpdate := fun _ _ =>
              .ok { cancel_at_period_end := .jbool true, current_period_end := .jnum 100 } }
          = ApiResp.ok
              { uid := "m1", stripeSubscriptionId := "sub1"
                cancelAtPeriodEnd := some true, currentPeriodEndMs := some (some 100000)
                write := { cancelAtPeriodEnd := some true
                           currentPeriodEndMs := some (some 100000) } } :=
  ⟨rfl, rfl⟩

/-- C6 amended — Identity Gate coverage as the code actually implements it:
the shared admin gate (`requireAdminFromRequest`) fails closed on an absent
header, an invalid credential, and a non-allow-listed principal, and the
member-creation and billing-status-set routes map every gate error to
401/403/500; the cancel-at-period-end route rejects an absent bearer header
(401) and an invalid credential (500) but never consults the allow-list — any
authenticated principal with a truthy uid passes its gate, every later
rejection being 400/404/500; and the member-list route performs no
authentication: its result does not depend on the Authorization header. -/
theorem identityGateAmended :
    (∀ (verify : String → Except String String) raw,
        requireAdminFromRequest verify raw none = .error "missing_authorization")
      ∧ (∀ (verify : String → Except String String) raw (hdr : Option String) tok e,
          matchBearer (hdr.getD "") = some tok → verify tok = .error e →
          requireAdminFromRequest verify raw hdr = .error e)
      ∧ (∀ (verify : String → Except String String) raw (hdr : Option String) tok u,
          matchBearer (hdr.getD "") = some tok → verify tok = .ok u →
          (parseAdminUids raw).contains u = false →
          requireAdminFromRequest verify raw hdr = .error "not_admin")
      ∧ (∀ (verify : String → Except String String) raw (hdr : Option String) msg
          (body : CreateMemberBody) (createUser : String → String → Except String String)
          (w : Except String Unit) (body2 : BillingSetBody) (w2 : Except String Unit),
          requireAdminFromRequest verify raw hdr = .error msg →
          createMemberHandler verify raw hdr body createUser w
              = .err (statusForAdminError msg) msg
            ∧ billingSetHandler verify raw hdr body2 w2 = .err (statusForAdminError msg) msg)
      ∧ statusForAdminError "missing_authorization" = 401
      ∧ statusForAdminError "not_admin" = 403
      ∧ (∀ env : CancelEnv, getBearer env.authHeader = none →
          cancelHandler env = .err 401 "UNAUTHORIZED")
      ∧ (∀ (env : CancelEnv) tok e, getBearer env.authHeader = some tok →
          env.verify tok = .error e → cancelHandler env = .err 500 e)
      ∧ (∀ (env : CancelEnv) tok u, getBearer env.authHeader = some tok →
          env.verify tok = .ok u → u ≠ "" →
          ∀ st m, cancelHandler env = .err st m → st ≠ 401 ∧ st ≠ 403)
      ∧ (∀ db (h1 h2 : Option String), membersListHandler db h1 = membersListHandler db h2) := by
  refine ⟨fun verify raw => rfl, ?_, ?_, ?_, rfl, rfl, ?_, ?_, ?_, fun db h1 h2 => rfl⟩
  · intro verify raw hdr tok e hb hv
    simp only [requireAdminFromRequest, hb, hv]
  · intro verify raw hdr tok u hb hv hc
    simp only [requireAdminFromRequest, hb, hv, hc]
    rfl
  · intro verify raw hdr msg body createUser w body2 w2 hmsg
    constructor
    · unfold createMemberHandler
      rw [hmsg]
    · unfold billingSetHandler
      rw [hmsg]
  · intro env hb
    unfold cancelHandler
    rw [hb]
  · intro env tok e hb hv
    simp only [cancelHandler, hb, hv]
  · intro env tok u hb hv hu st m hres
    simp only [cancelHandler, hb, hv, if_neg hu] at hres
    repeat' split at hres
    all_goals first
      | (cases hres; exact ⟨by decide, by decide⟩)
      | exact nomatch hres

/-- Witness for C6 amended: a non-allow-listed principal is rejected with
`not_admin`, and an invalid credential surfaces as a 500 from member creation. -/
theorem identityGateAmendedWitness :
    requireAdminFromRequest (fun _ => .ok "mallory") "adm1, adm2" (some "Bearer tok")
        = .error "not_admin"
      ∧ createMemberHandler (fun _ => .error "bad_token") "adm1" (some "Bearer tok")
          ⟨.jstr "e@x", .jstr "secret1", .jstr "N", .jstr "", .jstr "C", .jstr "", .jstr "free"⟩
          (fun _ _ => .ok "u9") (.ok ()) = .err 500 "bad_token" :=
  ⟨identityGateAmended.2.2.1 (fun _ => .ok "mallory") "adm1, adm2" (some "Bearer tok")
      "tok" "mallory" rfl rfl (by decide),
    (identityGateAmended.2.2.2.1 (fun _ => .error "bad_token") "adm1" (some "Bearer tok")
      "bad_token" ⟨.jstr "e@x", .jstr "secret1", .jstr "N", .jstr "", .jstr "C", .jstr "",
        .jstr "free"⟩ (fun _ _ => .ok "u9") (.ok ())
      { uid := .jstr "x", mode := .jsUndefined, status := .jsUndefined, stripeCustomerId := .jsUndefined,
        stripeSubscriptionId := .jsUndefined } (.ok ()) rfl).1⟩

/-! ## Work-type catalog (`workTypes` merge, `maxOrder`, `addWorkType`) -/

/-- Embedding of `WorkTypeCodeDoc` as held in `codesMap`: already normalized at snapshot
load (`normStr`/`normNum`/`normBool`), so `label` is a string, `order` a finite
number and `enabled` a boolean. -/
structure WorkTypeCodeDoc where
  label : String
  order : Int
  enabled : Bool
deriving DecidableEq

/-- Embedding of `TemplateMeta` as held in `templatesMeta`: `title` is already defaulted to
the document id at load (`normStr(data.title, d.id)`). -/
structure TemplateMeta where
  title : String
deriving DecidableEq

inductive RowSource where
  | codes
  | templates
  | both
deriving DecidableEq

structure WorkTypeRow where
  id : String
  label : String
  order : Int
  enabled : Bool
  source : RowSource
deriving DecidableEq

/-- JS `Set` insertion-order union: keep the first occurrence of each element. -/
def firstDedupAux (seen : List String) : List String → List String
  | [] => []
  | x :: xs => if x ∈ seen then firstDedupAux seen xs else x :: firstDedupAux (x :: seen) xs

/-- The id set of the merge: codes ids first (map insertion order), then
template ids not already present. -/
def unionIds (codes : List (String × WorkTypeCodeDoc))
    (temps : List (String × TemplateMeta)) : List String :=
  firstDedupAux [] (codes.map Prod.fst ++ temps.map Prod.fst)

/-- One merged row: `label = c?.label ?? t?.title ?? id`,
`order = c?.order ?? 999999`, `enabled = c?.enabled ?? true`,
`source = c && t ? "both" : c ? "codes" : "templates"`. -/
def buildRow (codes : List (String × WorkTypeCodeDoc))
    (temps : List (String × TemplateMeta)) (id : String) : WorkTypeRow :=
  match codes.lookup id, temps.lookup id with
  | some c, some _ => { id, label := c.label, order := c.order, enabled := c.enabled,
                        source := .both }
  | some c, none => { id, label := c.label, order := c.order, enabled := c.enabled,
                      source := .codes }
  | none, some t => { id, label := t.title, order := 999999, enabled := true,
                      source := .templates }
  | none, none => { id, label := id, order := 999999, enabled := true, source := .templates }

/-- The row comparator, parameterized by the `localeCompare(_, _, "ja")`
collation oracle, as the relation "comparator result ≤ 0".  (The
`Number.isFinite` fallback in the comparator is the identity here because
`codesMap` orders are already coerced finite at snapshot load.) -/
def rowLE (collate : String → String → Int) (a b : WorkTypeRow) : Prop :=
  if a.order = b.order then collate a.label b.label ≤ 0 else a.order ≤ b.order

instance (collate : String → String → Int) : DecidableRel (rowLE collate) := fun a b =>
  inferInstanceAs
    (Decidable (if a.order = b.order then collate a.label b.label ≤ 0 else a.order ≤ b.order))

/-- The `workTypes` merge: union of ids, one row per id, sorted by order
ascending with locale tie-break (stable JS sort). -/
def mergeRows (collate : String → String → Int) (codes : List (String × WorkTypeCodeDoc))
    (temps : List (String × TemplateMeta)) : List WorkTypeRow :=
  ((unionIds codes temps).map (fun id => buildRow codes temps id)).insertionSort (rowLE collate)

/-- Source `maxOrder`: `Math.max(...orders)` over the merged rows, 0 when empty. -/
def maxOrderOf (rows : List WorkTypeRow) : Int :=
  match rows.map (fun r => r.order) with
  | [] => 0
  | o :: os => os.foldl max o

/-- The `proclinkWorkTypeCodes` document created by `addWorkType`. -/
structure WorkTypeCodeWrite where
  id : String
  label : String
  order : Int
  enabled : Bool
deriving DecidableEq

/-- The `publicWorkTemplates` document created by `addWorkType`. -/
structure TemplateWrite where
  id : String
  workTypeId : String
  title : String
  steps : List Step
deriving DecidableEq

/-- Source `addWorkType`: reject an empty trimmed label; otherwise create the code
entry (auto id, `order = maxOrder + 1`, `enabled = true`) and the template
entry under the same id with the label as title and an empty step list. -/
def addWorkType (newId : String) (newWorkLabel : String) (rows : List WorkTypeRow) :
    Option (WorkTypeCodeWrite × TemplateWrite) :=
  if jsTrim newWorkLabel = "" then none
  else some
    ({ id := newId, label := jsTrim newWorkLabel, order := maxOrderOf rows + 1, enabled := true },
      { id := newId, workTypeId := newId, title := jsTrim newWorkLabel, steps := [] })

theorem le_foldl_max_init (os : List Int) (a : Int) : a ≤ os.foldl max a := by
  induction os generalizing a with
  | nil => exact le_refl a
  | cons o os ih => exact le_trans (le_max_left a o) (ih (max a o))

theorem le_foldl_max_mem (os : List Int) (a x : Int) (hx : x ∈ os) : x ≤ os.foldl max a := by
  induction os generalizing a with
  | nil => simp at hx
  | cons o os ih =>
    rcases List.mem_cons.mp hx with h | h
    · subst h
      exact le_trans (le_max_right a x) (le_foldl_max_init os (max a x))
    · exact ih (max a o) h

theorem mem_le_maxOrderOf (rows : List WorkTypeRow) (r : WorkTypeRow) (hr : r ∈ rows) :
    r.order ≤ maxOrderOf rows := by
  have hmem : r.order ∈ rows.map (fun x => x.order) := List.mem_map.mpr ⟨r, hr, rfl⟩
  unfold maxOrderOf
  rcases hl : rows.map (fun x => x.order) with _ | ⟨o, os⟩
  · rw [hl] at hmem
    simp at hmem
  · rw [hl] at hmem
    rw [hl]
    rcases List.mem_cons.mp hmem with h | h
    · rw [h]
      exact le_foldl_max_init os o
    · exact le_foldl_max_mem os o r.order h

/-- C8 — Catalog add: with a non-empty trimmed label, `addWorkType` creates
a code entry whose `order` is the current maximum row order plus one (hence
strictly above every existing row's order) with `enabled = true`, and a
template document under the same freshly generated id whose title is the
entered label and whose step sequence is empty. -/
theorem catalogAddOrder (newId label : String) (rows : List WorkTypeRow)
    (h : jsTrim label ≠ "") :
    ∃ cw tw, addWorkType newId label rows = some (cw, tw)
      ∧ cw.order = maxOrderOf rows + 1
      ∧ cw.enabled = true
      ∧ cw.id = newId ∧ tw.id = newId ∧ tw.workTypeId = newId
      ∧ tw.title = jsTrim label ∧ tw.steps = []
      ∧ ∀ r ∈ rows, r.order < cw.order := by
  refine ⟨{ id := newId, label := jsTrim label, order := maxOrderOf rows + 1, enabled := true },
    { id := newId, workTypeId := newId, title := jsTrim label, steps := [] },
    by unfold addWorkType; rw [if_neg h], rfl, rfl, rfl, rfl, rfl, rfl, rfl, ?_⟩
  intro r hr
  have := mem_le_maxOrderOf rows r hr
  show r.order < maxOrderOf rows + 1
  omega

/-- Witness for C8: adding to a catalog with rows of orders 1 and 2. -/
theorem catalogAddOrderWitness :
    ∃ cw tw, addWorkType "id9" " New work " [⟨"a", "A", 1, true, .codes⟩,
        ⟨"b", "B", 2, true, .both⟩] = some (cw, tw)
      ∧ cw.order = maxOrderOf [⟨"a", "A", 1, true, .codes⟩, ⟨"b", "B", 2, true, .both⟩] + 1
      ∧ cw.enabled = true
      ∧ cw.id = "id9" ∧ tw.id = "id9" ∧ tw.workTypeId = "id9"
      ∧ tw.title = jsTrim " New work " ∧ tw.steps = []
      ∧ ∀ r ∈ ([⟨"a", "A", 1, true, .codes⟩, ⟨"b", "B", 2, true, .both⟩] : List WorkTypeRow),
          r.order < cw.order :=
  catalogAddOrder "id9" " New work " _ (by decide)

/-! ## Catalog merge theorems (C7) -/

theorem lookup_mem {β : Type} (l : List (String × β)) (a : String) (b : β)
    (h : l.lookup a = some b) : (a, b) ∈ l := by
  induction l with
  | nil => simp [List.lookup] at h
  | cons p l ih =>
    rcases p with ⟨k, v⟩
    by_cases hk : a = k
    · subst hk
      simp [List.lookup] at h
      rw [← h]
      exact List.mem_cons_self _ _
    · have hbeq : (a == k) = false := beq_eq_false_iff_ne.mpr hk
      simp [List.lookup, hbeq] at h
      exact List.mem_cons_of_mem _ (ih h)

theorem mem_firstDedupAux (l : List String) (seen : List String) (x : String)
    (hx : x ∈ l) (hnot : x ∉ seen) : x ∈ firstDedupAux seen l := by
  induction l generalizing seen with
  | nil => simp at hx
  | cons y ys ih =>
    rcases List.mem_cons.mp hx with h | h
    · subst h
      unfold firstDedupAux
      rw [if_neg hnot]
      exact List.mem_cons_self _ _
    · unfold firstDedupAux
      by_cases hy : y ∈ seen
      · rw [if_pos hy]
        exact ih seen h hnot
      · rw [if_neg hy]
        by_cases hxy : x = y
        · subst hxy
          exact List.mem_cons_self _ _
        · refine List.mem_cons_of_mem _ (ih (y :: seen) h ?_)
          intro hmem
          rcases List.mem_cons.mp hmem with h2 | h2
          · exact hxy h2
          · exact hnot h2

theorem buildRow_id (codes : List (String × WorkTypeCodeDoc))
    (temps : List (String × TemplateMeta)) (id : String) :
    (buildRow codes temps id).id = id := by
  unfold buildRow
  rcases codes.lookup id with _ | c <;> rcases temps.lookup id with _ | t <;> rfl

/-- Shape of every merged row: a template-only row carries the sentinel order
999999 (and no code entry), and every other row carries some code entry's
order. -/
theorem mergeRows_mem_shape (collate : String → String → Int)
    (codes : List (String × WorkTypeCodeDoc)) (temps : List (String × TemplateMeta)) :
    ∀ r ∈ mergeRows collate codes temps,
      (r.source = RowSource.templates → r.order = 999999)
        ∧ (r.source ≠ RowSource.templates →
            ∃ c, codes.lookup r.id = some c ∧ r.order = c.order) := by
  intro r hr
  have hr2 : r ∈ (unionIds codes temps).map (fun i => buildRow codes temps i) :=
    (List.perm_insertionSort _ _).mem_iff.mp hr
  obtain ⟨id, _, rfl⟩ := List.mem_map.mp hr2
  rcases hc : codes.lookup id with _ | c <;> rcases ht : temps.lookup id with _ | t <;>
    simp [buildRow, hc, ht]

/-- C7 counterexample — the claim that an id present only in the template
collection "sorts after every id present in the code collection" is false as
soon as a code entry's order reaches the sentinel: with a code entry of order
1000000 and any template-only id (sentinel order 999999), the merged list puts
the template-only row *first*. -/
theorem catalogMergeCounterexample :
    (mergeRows (fun _ _ => 0)
        [("c1", { label := "Code", order := 1000000, enabled := true })]
        [("t1", { title := "Tmpl" })]).map (fun r => (r.id, r.source))
      = [("t1", RowSource.templates), ("c1", RowSource.codes)]
      ∧ ¬ ((mergeRows (fun _ _ => 0)
            [("c1", { label := "Code", order := 1000000, enabled := true })]
            [("t1", { title := "Tmpl" })]).Pairwise
          (fun a b => b.source ≠ RowSource.templates → a.source ≠ RowSource.templates)) := by
  constructor
  · rfl
  · decide

/-- C7 amended — Catalog merge, with the sentinel bound made explicit: the
merged row set is keyed by the union of ids; an id present only in the
template collection yields a row with `source = templates`, label equal to the
template title and the sentinel order 999999; the rows are sorted by the
comparator (order ascending, locale tie-break); and — *provided every code
entry's order is strictly below the sentinel 999999* (forced by the
counterexample; automatic for catalogs maintained by this code's own
`maxOrder + 1` assignment at realistic sizes) — every row backed by a code
entry precedes every template-only row.  The collation oracle is assumed to be
a total preorder, as `localeCompare` is. -/
theorem catalogMergeAmended (collate : String → String → Int)
    (codes : List (String × WorkTypeCodeDoc)) (temps : List (String × TemplateMeta))
    (htotal : ∀ a b, collate a b ≤ 0 ∨ collate b a ≤ 0)
    (htrans : ∀ a b c, collate a b ≤ 0 → collate b c ≤ 0 → collate a c ≤ 0)
    (hsent : ∀ p ∈ codes, (p.2 : WorkTypeCodeDoc).order < 999999) :
    ((mergeRows collate codes temps).map WorkTypeRow.id).Perm (unionIds codes temps)
      ∧ (∀ id t, temps.lookup id = some t → codes.lookup id = none →
          ∃ r ∈ mergeRows collate codes temps,
            r.id = id ∧ r.source = .templates ∧ r.label = t.title ∧ r.order = 999999)
      ∧ (mergeRows collate codes temps).Pairwise (rowLE collate)
      ∧ (mergeRows collate codes temps).Pairwise
          (fun a b => b.source ≠ RowSource.templates → a.source ≠ RowSource.templates) := by
  haveI : IsTotal WorkTypeRow (rowLE collate) := ⟨by
    intro a b
    unfold rowLE
    by_cases he : a.order = b.order
    · rw [if_pos he, if_pos he.symm]
      exact htotal _ _
    · rw [if_neg he, if_neg (Ne.symm he)]
      omega⟩
  haveI : IsTrans WorkTypeRow (rowLE collate) := ⟨by
    intro a b c hab hbc
    unfold rowLE at hab hbc ⊢
    by_cases h1 : a.order = b.order <;> by_cases h2 : b.order = c.order
    · rw [if_pos h1] at hab
      rw [if_pos h2] at hbc
      rw [if_pos (h1.trans h2)]
      exact htrans _ _ _ hab hbc
    · rw [if_pos h1] at hab
      rw [if_neg h2] at hbc
      rw [if_neg (show ¬a.order = c.order by omega)]
      omega
    · rw [if_neg h1] at hab
      rw [if_pos h2] at hbc
      rw [if_neg (show ¬a.order = c.order by omega)]
      omega
    · rw [if_neg h1] at hab
      rw [if_neg h2] at hbc
      rw [if_neg (show ¬a.order = c.order by omega)]
      omega⟩
  have hsorted : (mergeRows collate codes temps).Pairwise (rowLE collate) :=
    List.sorted_insertionSort (rowLE collate)
      ((unionIds codes temps).map (fun i => buildRow codes temps i))
  have hshape := mergeRows_mem_shape collate codes temps
  refine ⟨?_, ?_, hsorted, ?_⟩
  · have hperm := (List.perm_insertionSort (rowLE collate)
      ((unionIds codes temps).map (fun i => buildRow codes temps i))).map WorkTypeRow.id
    refine hperm.trans ?_
    rw [List.map_map,
      show (WorkTypeRow.id ∘ fun i => buildRow codes temps i) = fun i => i from
        funext (fun i => buildRow_id codes temps i)]
    rw [List.map_id']
  · intro id t ht hc
    have hidmem : id ∈ unionIds codes temps := by
      refine mem_firstDedupAux _ _ _ ?_ (by simp)
      exact List.mem_append.mpr (Or.inr (List.mem_map.mpr ⟨(id, t), lookup_mem _ _ _ ht, rfl⟩))
    have hrowmem : buildRow codes temps id
        ∈ (unionIds codes temps).map (fun i => buildRow codes temps i) :=
      List.mem_map.mpr ⟨id, hidmem, rfl⟩
    refine ⟨buildRow codes temps id, (List.perm_insertionSort _ _).mem_iff.mpr hrowmem,
      ?_, ?_, ?_, ?_⟩ <;> simp [buildRow, hc, ht]
  · refine hsorted.imp_of_mem ?_
    intro a b ha hb hab hbs has
    have h999 := (hshape a ha).1 has
    obtain ⟨c, hcl, hbo⟩ := (hshape b hb).2 hbs
    have hco : c.order < 999999 := hsent (b.id, c) (lookup_mem _ _ _ hcl)
    unfold rowLE at hab
    rw [if_neg (show ¬a.order = b.order by omega)] at hab
    omega

/-- Witness for C7 amended on a one-code, one-template catalog with the
all-ties collation. -/
theorem catalogMergeAmendedWitness :
    ((mergeRows (fun _ _ => 0) [("c1", ⟨"C", 1, true⟩)] [("t1", ⟨"T"⟩)]).map
        WorkTypeRow.id).Perm (unionIds [("c1", ⟨"C", 1, true⟩)] [("t1", ⟨"T"⟩)])
      ∧ (mergeRows (fun _ _ => 0) [("c1", ⟨"C", 1, true⟩)] [("t1", ⟨"T"⟩)]).Pairwise
          (fun a b => b.source ≠ RowSource.templates → a.source ≠ RowSource.templates) :=
  ⟨(catalogMergeAmended (fun _ _ => 0) [("c1", ⟨"C", 1, true⟩)] [("t1", ⟨"T"⟩)]
      (fun _ _ => Or.inl (by simp)) (fun _ _ _ _ _ => by simp) (by decide)).1,
    (catalogMergeAmended (fun _ _ => 0) [("c1", ⟨"C", 1, true⟩)] [("t1", ⟨"T"⟩)]
      (fun _ _ => Or.inl (by simp)) (fun _ _ _ _ _ => by simp) (by decide)).2.2.2⟩
